import Mathlib

/-!
# GitFlex analysis engine — verification development

Shallow embedding of `src/lib/github.ts` (GitFlex): the response cache,
the API error classification, the throttled request retry policy, and the
commit-farming analysis (`analyzeCommitFarming`) with its four metric
computations and weighted aggregate.

JavaScript numbers are modelled as `ℚ` (scores, ratios) and `Int`/`Nat`
(epoch-millisecond timestamps, counters).  Fallible API calls are modelled
with `Except`; the sequence of fetch-function invocations an analysis makes
is returned as an explicit trace, so that call-volume properties can be
stated.
-/

namespace GitFlex

/-! ## Data model (the fields of the TypeScript interfaces used by the
analysis; display-only fields such as `html_url` or `description` are
omitted as no analysed code reads them) -/

/-- Model of `GitHubRepo` (the fields read by `analyzeCommitFarming`). -/
structure GitHubRepo where
  full_name : String
  fork : Bool
  stargazers_count : Nat
  forks_count : Nat
deriving DecidableEq, Repr

/-- Model of the `stats` of a commit: additions / deletions line counts. -/
structure CommitStats where
  additions : Nat
  deletions : Nat
deriving DecidableEq, Repr

/-- Model of `GitHubCommit` (the fields read by the analysis): `sha`, the author date
`commit.commit.author.date` as epoch milliseconds, and the optional
`stats` present only on detail fetches. -/
structure GitHubCommit where
  sha : String
  date : Int
  stats : Option CommitStats
deriving DecidableEq, Repr

/-- The four sub-scores (`metrics` of the analysis result). -/
structure Metrics where
  commitFrequency : ℚ
  codeQuality : ℚ
  projectDiversity : ℚ
  contributionImpact : ℚ
deriving DecidableEq, Repr

/-- The value returned by `analyzeCommitFarming`: overall `score` plus the
metrics bundle. -/
structure AnalysisResult where
  score : ℚ
  metrics : Metrics
deriving DecidableEq, Repr

/-! ## JavaScript string `includes` (structural, over the character list) -/

/-- Linear scan `p.isPrefixOf l || charsIncludes p rest`; `charsIncludes p l`
is true iff `p` occurs as a contiguous sublist of `l`. -/
def charsIncludes (p : List Char) : List Char → Bool
  | [] => p.isEmpty
  | c :: rest => p.isPrefixOf (c :: rest) || charsIncludes p rest

/-- JavaScript `s.includes(sub)`. -/
def stringIncludes (s sub : String) : Bool :=
  charsIncludes sub.data s.data

/-! ## Errors and `handleApiError` -/

/-- A JavaScript error value as `handleApiError` inspects it: either an
Octokit API error carrying an HTTP `status`, a `message` and the optional
`x-ratelimit-reset` header (seconds), or a plain `new Error(message)`
which has no `status`. -/
inductive JsError where
  | api (status : Nat) (message : String) (ratelimitReset : Option Nat) : JsError
  | plain (message : String) : JsError
deriving DecidableEq, Repr

/-- Rendering `new Date(resetTime * 1000).toLocaleTimeString()` — it is
locale/environment dependent; modelled as the decimal seconds value.  No
claim depends on the concrete rendering, only on whether it appears. -/
def toLocaleTimeString (resetSeconds : Nat) : String :=
  toString resetSeconds

/-- Message thrown for a primary rate-limit error (`resetMessage` spliced
in the middle, as in the source). -/
def rateLimitErrorMessage (resetMessage : String) : String :=
  "GitHub API rate limit exceeded." ++ resetMessage ++
  " Please make sure you have added a valid GitHub personal access token in your .env.local file.\n" ++
  "See the README.md for instructions on how to create and configure your token."

/-- Message thrown for HTTP 401. -/
def authErrorMessage : String :=
  "GitHub API authentication failed. Your token may be invalid or expired.\n" ++
  "Please make sure you have added a valid GitHub personal access token in your .env.local file."

/-- Message thrown for HTTP 404 — a fixed string; the requested entity
appears only in the `console.error` log line, never in the thrown error. -/
def notFoundErrorMessage : String :=
  "GitHub resource not found. Please check the provided information and try again."

/-- Model of `handleApiError(error, context)`: classifies the error by status and
message and returns the error that the function throws.  The `context`
string reaches only `console.error`, not any thrown error, hence the
result does not depend on it. -/
def handleApiError (error : JsError) (_context : String) : JsError :=
  match error with
  | .plain m => .plain m
  | .api status message ratelimitReset =>
    if status == 403 && stringIncludes message "API rate limit exceeded" then
      let resetMessage :=
        match ratelimitReset with
        | some t => " Rate limit will reset at " ++ toLocaleTimeString t ++ "."
        | none => ""
      .plain (rateLimitErrorMessage resetMessage)
    else if status == 401 then
      .plain authErrorMessage
    else if status == 404 then
      .plain notFoundErrorMessage
    else
      .api status message ratelimitReset

/-! ## Response cache (`getCachedOrFetch`) -/

/-- The constant `CACHE_TTL = 5 * 60 * 1000` milliseconds. -/
def CACHE_TTL : Nat := 5 * 60 * 1000

/-- One `apiCache` entry: `\x7b data, timestamp \x7d`. -/
structure CacheEntry (α : Type) where
  data : α
  timestamp : Nat

/-- The `apiCache` map, keyed by the cache-key string. -/
def Cache (α : Type) : Type := String → Option (CacheEntry α)

/-- Model of `apiCache.set(key, entry)`. -/
def cacheSet {α} (cache : Cache α) (key : String) (entry : CacheEntry α) : Cache α :=
  fun k => if k = key then some entry else cache k

/-- Model of `getCachedOrFetch(cacheKey, fetchFn)` at time `now`: returns the value
produced, the cache state afterwards, and the number of times `fetchFn`
was invoked (0 or 1). -/
def getCachedOrFetch {α} (cache : Cache α) (now : Nat) (cacheKey : String)
    (fetchFn : Unit → α) : α × Cache α × Nat :=
  match cache cacheKey with
  | some cached =>
    if now - cached.timestamp < CACHE_TTL then
      (cached.data, cache, 0)
    else
      let data := fetchFn ()
      (data, cacheSet cache cacheKey ⟨data, now⟩, 1)
  | none =>
    let data := fetchFn ()
    (data, cacheSet cache cacheKey ⟨data, now⟩, 1)

/-! ## Metric computations (`analyzeCommitFarming`, lines 259–311) -/

/-- The inner loop of the Commit Frequency metric: over a (sorted) list of
epoch-millisecond timestamps, count adjacent pairs whose gap, divided by
`1000 * 60` (i.e. in minutes), is below 5. -/
def suspiciousPatterns : List Int → Nat
  | a :: b :: rest =>
    (if (((b - a : Int) : ℚ) / (1000 * 60)) < 5 then 1 else 0) +
      suspiciousPatterns (b :: rest)
  | _ => 0

/-- Commit Frequency sub-score: default `0.5`; with more than one
timestamp, sort ascending and score `max 0 (1 - suspicious / count)`. -/
def commitFrequencyScore (commitDates : List Int) : ℚ :=
  if commitDates.length > 1 then
    let sorted := List.insertionSort (· ≤ ·) commitDates
    max 0 (1 - (suspiciousPatterns sorted : ℚ) / (commitDates.length : ℚ))
  else
    1/2

/-- Code Quality sub-score from total additions and deletions. -/
def codeQualityScore (totalAdditions totalDeletions : Nat) : ℚ :=
  if totalAdditions + totalDeletions > 0 then
    let ratio : ℚ := (totalDeletions : ℚ) / ((totalAdditions : ℚ) + (totalDeletions : ℚ))
    if ratio < 1/10 then 3/10 else if ratio > 1/2 then 9/10 else 6/10
  else
    1/2

/-- Project Diversity sub-score: `min(1, ownRepos.length / 10)`. -/
def projectDiversityScore (ownRepoCount : Nat) : ℚ :=
  min 1 ((ownRepoCount : ℚ) / 10)

/-- Contribution Impact sub-score from total stars and forks. -/
def contributionImpactScore (totalStars totalForks : Nat) : ℚ :=
  if totalStars > 100 || totalForks > 20 then 1
  else if totalStars > 10 || totalForks > 5 then 7/10
  else 3/10

/-- The overall score: fixed weighted sum of the four sub-scores
(lines 306–311). -/
def overallScore (m : Metrics) : ℚ :=
  m.commitFrequency * (4/10) + m.codeQuality * (3/10) +
  m.projectDiversity * (1/10) + m.contributionImpact * (2/10)

/-! ## The API layer: fetch functions and the analysis, with a call trace -/

/-- One invocation of a fetch function (each performs an upstream GitHub
API call on a cache miss). -/
inductive ApiCall where
  | listRepos (username : String) : ApiCall
  | listCommits (owner repo : String) : ApiCall
  | getCommit (owner repo sha : String) : ApiCall
deriving DecidableEq, Repr

/-- The upstream world an analysis runs against: the outcome each raw API
request would have.  Errors are the raw Octokit errors, before
`handleApiError` transforms them. -/
structure ApiEnv where
  repos : String → Except JsError (List GitHubRepo)
  commits : String → String → Except JsError (List GitHubCommit)
  commitDetail : String → String → String → Except JsError GitHubCommit

/-- Model of `fetchUserRepos`: on failure the catch block rethrows
`handleApiError(error, 'fetching user repositories')`. -/
def fetchUserRepos (env : ApiEnv) (username : String) :
    Except JsError (List GitHubRepo) :=
  match env.repos username with
  | .ok data => .ok data
  | .error e => .error (handleApiError e "fetching user repositories")

/-- Model of `fetchRepoCommits`. -/
def fetchRepoCommits (env : ApiEnv) (owner repo : String) :
    Except JsError (List GitHubCommit) :=
  match env.commits owner repo with
  | .ok data => .ok data
  | .error e =>
    .error (handleApiError e ("fetching commits for " ++ owner ++ "/" ++ repo))

/-- Model of `fetchCommitDetails`. -/
def fetchCommitDetails (env : ApiEnv) (owner repo sha : String) :
    Except JsError GitHubCommit :=
  match env.commitDetail owner repo sha with
  | .ok data => .ok data
  | .error e =>
    .error (handleApiError e ("fetching commit details for " ++ sha))

/-- JavaScript `s.split(sep)` for a one-character separator, over the
character list: splits at every occurrence of `sep`, keeping empty
components (`"a/b"` gives `["a", "b"]`, `""` gives `[""]`). -/
def splitChars (sep : Char) : List Char → List Char → List (List Char)
  | [], acc => [acc.reverse]
  | c :: rest, acc =>
    if c == sep then acc.reverse :: splitChars sep rest []
    else splitChars sep rest (c :: acc)

/-- Destructuring `const [owner, repoName] = repo.full_name.split('/')` — the first two
components of the split (missing components are `undefined` in JS,
modelled as `""`). -/
def splitFullName (full_name : String) : String × String :=
  match (splitChars '/' full_name.data []).map String.mk with
  | owner :: repoName :: _ => (owner, repoName)
  | [owner] => (owner, "")
  | [] => ("", "")

/-- The inner sampling loop (lines 248–254): for each commit of the
sample, fetch its details and accumulate `stats.additions` /
`stats.deletions` when present.  Returns the accumulated totals (or the
first error) together with the trace of detail fetches made. -/
def detailLoop (env : ApiEnv) (owner repoName : String) :
    List GitHubCommit → Nat → Nat → Except JsError (Nat × Nat) × List ApiCall
  | [], totalAdditions, totalDeletions =>
    (.ok (totalAdditions, totalDeletions), [])
  | commit :: rest, totalAdditions, totalDeletions =>
    match fetchCommitDetails env owner repoName commit.sha with
    | .error e => (.error e, [.getCommit owner repoName commit.sha])
    | .ok details =>
      let acc :=
        match details.stats with
        | some stats => (totalAdditions + stats.additions, totalDeletions + stats.deletions)
        | none => (totalAdditions, totalDeletions)
      let r := detailLoop env owner repoName rest acc.1 acc.2
      (r.1, .getCommit owner repoName commit.sha :: r.2)

/-- The outer repository loop (lines 234–255): for each analysed
repository, fetch its commits, add their count and dates to the
accumulators, and run the detail loop on the first 5 commits. -/
def repoLoop (env : ApiEnv) :
    List GitHubRepo → Nat → Nat → Nat → List Int →
    Except JsError (Nat × Nat × Nat × List Int) × List ApiCall
  | [], totalCommits, totalAdditions, totalDeletions, commitDates =>
    (.ok (totalCommits, totalAdditions, totalDeletions, commitDates), [])
  | repo :: rest, totalCommits, totalAdditions, totalDeletions, commitDates =>
    let p := splitFullName repo.full_name
    match fetchRepoCommits env p.1 p.2 with
    | .error e => (.error e, [.listCommits p.1 p.2])
    | .ok commits =>
      let d := detailLoop env p.1 p.2 (commits.take 5) totalAdditions totalDeletions
      match d.1 with
      | .error e => (.error e, .listCommits p.1 p.2 :: d.2)
      | .ok acc =>
        let r := repoLoop env rest (totalCommits + commits.length) acc.1 acc.2
          (commitDates ++ commits.map (fun c => c.date))
        (r.1, (.listCommits p.1 p.2 :: d.2) ++ r.2)

/-- Model of `analyzeCommitFarming(username)`: the full analysis, returning the
result (or the raised error) and the trace of fetch invocations.  The
enclosing try/catch applies `handleApiError(error, 'analyzing commit
farming')` to any error thrown inside. -/
def analyzeCommitFarming (env : ApiEnv) (username : String) :
    Except JsError AnalysisResult × List ApiCall :=
  match fetchUserRepos env username with
  | .error e =>
    (.error (handleApiError e "analyzing commit farming"), [.listRepos username])
  | .ok repos =>
    let ownRepos := repos.filter (fun repo => !repo.fork)
    if ownRepos.length = 0 then
      (.ok ⟨0, ⟨0, 0, 0, 0⟩⟩, [.listRepos username])
    else
      let reposToAnalyze := ownRepos.take 5
      let r := repoLoop env reposToAnalyze 0 0 0 []
      match r.1 with
      | .error e =>
        (.error (handleApiError e "analyzing commit farming"), .listRepos username :: r.2)
      | .ok acc =>
        let commitFrequency := commitFrequencyScore acc.2.2.2
        let codeQuality := codeQualityScore acc.2.1 acc.2.2.1
        let projectDiversity := projectDiversityScore ownRepos.length
        let totalStars := (ownRepos.map (fun repo => repo.stargazers_count)).sum
        let totalForks := (ownRepos.map (fun repo => repo.forks_count)).sum
        let contributionImpact := contributionImpactScore totalStars totalForks
        let metrics : Metrics := ⟨commitFrequency, codeQuality, projectDiversity, contributionImpact⟩
        (.ok ⟨overallScore metrics, metrics⟩, .listRepos username :: r.2)

/-! ## Throttled request retry policy

The two callbacks below are this repository's code (the `throttle`
configuration of `ThrottledOctokit`, lines 15–30).  The loop driving them
is the Octokit throttling plugin, an external dependency not under
`src/`. -/

/-- The callback `onRateLimit` (lines 16–23): returns true — retry — exactly when
`options.request.retryCount <= 2` (the callback otherwise returns
`undefined`, which is falsy).  `retryCount` is the number of retries
already performed, `0` on the first failure. -/
def onRateLimit (retryCount : Nat) : Bool :=
  retryCount ≤ 2

/-- The callback `onSecondaryRateLimit` (lines 24–28): retry exactly when
`options.request.retryCount <= 1`. -/
def onSecondaryRateLimit (retryCount : Nat) : Bool :=
  retryCount ≤ 1

/-- The outcome of one attempt of an upstream request. -/
inductive GhResponse (α : Type) where
  | ok (value : α) : GhResponse α
  | primaryRateLimit (ratelimitReset : Option Nat) : GhResponse α
  | secondaryRateLimit : GhResponse α
  | httpError (status : Nat) (message : String) : GhResponse α

/-- Modelled from the spec: the retry loop of the Octokit throttling
plugin (an external dependency, absent from `src/`).  On a primary or
secondary rate-limit response it consults the configured callback with
the current retry count and retries when it returns true; any other
failure is surfaced immediately with no retry.  `attempts` counts from 0;
`fuel` bounds the structural recursion and is never exhausted when the
loop starts with enough fuel, since both callbacks refuse from
`retryCount = 3` on. -/
def runRequestAux {α} (responses : Nat → GhResponse α) :
    Nat → Nat → Nat × Except JsError α
  | retryCount, 0 => (retryCount, .error (.plain "retry loop out of fuel"))
  | retryCount, fuel + 1 =>
    match responses retryCount with
    | .ok v => (retryCount + 1, .ok v)
    | .primaryRateLimit ratelimitReset =>
      if onRateLimit retryCount then
        runRequestAux responses (retryCount + 1) fuel
      else
        (retryCount + 1, .error (.api 403 "API rate limit exceeded" ratelimitReset))
    | .secondaryRateLimit =>
      if onSecondaryRateLimit retryCount then
        runRequestAux responses (retryCount + 1) fuel
      else
        (retryCount + 1, .error (.api 403 "You have exceeded a secondary rate limit" none))
    | .httpError status message =>
      (retryCount + 1, .error (.api status message none))

/-- Run a request from retry count 0: the number of attempts made and the
final outcome. -/
def runRequest {α} (responses : Nat → GhResponse α) : Nat × Except JsError α :=
  runRequestAux responses 0 8

/-! ## Observations on traces and environments -/

/-- Whether the raw upstream request behind a fetch invocation fails in
the given environment. -/
def callFails (env : ApiEnv) : ApiCall → Bool
  | .listRepos username =>
    match env.repos username with
    | .ok _ => false
    | .error _ => true
  | .listCommits owner repo =>
    match env.commits owner repo with
    | .ok _ => false
    | .error _ => true
  | .getCommit owner repo sha =>
    match env.commitDetail owner repo sha with
    | .ok _ => false
    | .error _ => true

/-- Is this `Except` a success? -/
def exceptOk {ε α : Type} : Except ε α → Bool
  | .ok _ => true
  | .error _ => false

/-- Decidable equality of `Except` values, for evaluating concrete
analysis outcomes. -/
instance exceptDecEq {ε α : Type} [DecidableEq ε] [DecidableEq α] :
    DecidableEq (Except ε α) := fun x y =>
  match x, y with
  | .ok a, .ok b =>
    if h : a = b then isTrue (congrArg Except.ok h)
    else isFalse (fun hc => h (Except.ok.inj hc))
  | .error a, .error b =>
    if h : a = b then isTrue (congrArg Except.error h)
    else isFalse (fun hc => h (Except.error.inj hc))
  | .ok _, .error _ => isFalse (fun hc => Except.noConfusion hc)
  | .error _, .ok _ => isFalse (fun hc => Except.noConfusion hc)

/-- Is this invocation a commit-detail fetch? -/
def isGetCommitCall : ApiCall → Bool
  | .getCommit _ _ _ => true
  | _ => false

/-- Is this invocation a commit-list fetch? -/
def isListCommitsCall : ApiCall → Bool
  | .listCommits _ _ => true
  | _ => false

/-- A concrete environment whose repository listing holds only a fork;
commit fetches would fail loudly if they were ever issued. -/
def envOnlyForks : ApiEnv where
  repos := fun _ => .ok [⟨"octocat/forked", true, 3, 1⟩]
  commits := fun _ _ => .error (.api 500 "must not be called" none)
  commitDetail := fun _ _ _ => .error (.api 500 "must not be called" none)

/-- A concrete environment with one non-fork repository whose commit
listing fails with an HTTP 500. -/
def envFailingCommits : ApiEnv where
  repos := fun _ => .ok [⟨"alice/proj", false, 0, 0⟩]
  commits := fun _ _ => .error (.api 500 "boom" none)
  commitDetail := fun _ _ _ => .ok ⟨"", 0, none⟩

/-- A concrete environment with one non-fork repository and an empty
commit list. -/
def envOneQuietRepo : ApiEnv where
  repos := fun _ => .ok [⟨"alice/proj", false, 0, 0⟩]
  commits := fun _ _ => .ok []
  commitDetail := fun _ _ _ => .ok ⟨"", 0, none⟩

/-! ## Spec-side formulations (for refinement claims) -/

/-- The Commit Frequency formula in the spec's words (§4.3.1): fewer than
2 timestamps → 0.5; otherwise sort ascending, flag each adjacent pair
whose gap is under 5 minutes (300000 ms), and score
`max 0 (1 - suspiciousCount / totalTimestampCount)`. -/
def commitFrequencySpec (timestamps : List Int) : ℚ :=
  if timestamps.length < 2 then 1/2
  else
    let sorted := List.insertionSort (· ≤ ·) timestamps
    let suspiciousCount :=
      (sorted.zip sorted.tail).countP (fun p => decide (p.2 - p.1 < 5 * 60 * 1000))
    max 0 (1 - (suspiciousCount : ℚ) / (timestamps.length : ℚ))

/-- The Code Quality mapping in the spec's words (§4.3.2). -/
def codeQualitySpec (additions deletions : Nat) : ℚ :=
  if additions + deletions = 0 then 1/2
  else
    let ratio : ℚ := (deletions : ℚ) / ((additions : ℚ) + (deletions : ℚ))
    if ratio < 1/10 then 3/10 else if ratio > 1/2 then 9/10 else 6/10

/-! ## Supporting lemmas -/

/-- The source's float gap test `(b - a) / (1000*60) < 5` is the integer
test `b - a < 300000`. -/
lemma gap_condition (a b : Int) :
    ((((b - a : Int) : ℚ) / (1000 * 60)) < 5) ↔ (b - a < 5 * 60 * 1000) := by
  rw [div_lt_iff₀ (by norm_num)]
  rw [show (5 : ℚ) * (1000 * 60) = ((5 * 60 * 1000 : Int) : ℚ) by norm_num]
  exact Int.cast_lt

/-- The source's adjacent-pair loop counts exactly the flagged pairs of
the zip-with-tail formulation. -/
lemma suspiciousPatterns_eq_countP : ∀ l : List Int,
    suspiciousPatterns l =
      (l.zip l.tail).countP (fun p => decide (p.2 - p.1 < 5 * 60 * 1000))
  | [] => rfl
  | [_] => rfl
  | a :: b :: rest => by
    have ih := suspiciousPatterns_eq_countP (b :: rest)
    simp only [List.tail_cons] at ih
    show (if (((b - a : Int) : ℚ) / (1000 * 60)) < 5 then 1 else 0) +
        suspiciousPatterns (b :: rest) = _
    rw [List.tail_cons, List.zip_cons_cons, List.countP_cons, ih]
    by_cases h : b - a < 5 * 60 * 1000
    · rw [if_pos ((gap_condition a b).mpr h), if_pos (by simpa using h)]
      omega
    · rw [if_neg (fun hc => h ((gap_condition a b).mp hc)), if_neg (by simpa using h)]
      omega

/-! ## Claim theorems -/

/-- C1: the Commit Frequency sub-score is 0.5 for fewer than 2
timestamps, and otherwise `max 0 (1 - suspiciousCount / count)` over the
ascending sort with adjacent gaps under 5 minutes flagged, the
denominator being the timestamp count; in particular
`[T, T+1min, T+10min]` scores `1 - 1/3`. -/
theorem commit_frequency_matches_spec :
    (∀ timestamps : List Int,
      commitFrequencyScore timestamps = commitFrequencySpec timestamps) ∧
    (∀ T : Int, commitFrequencyScore [T, T + 60000, T + 600000] = 1 - 1/3) := by
  constructor
  · intro ts
    unfold commitFrequencyScore commitFrequencySpec
    rcases Nat.lt_or_ge ts.length 2 with h | h
    · rw [if_neg (show ¬ts.length > 1 by omega), if_pos h]
    · rw [if_pos (show ts.length > 1 by omega), if_neg (show ¬ts.length < 2 by omega)]
      simp only [suspiciousPatterns_eq_countP]
  · intro T
    have hsorted :
        List.insertionSort (· ≤ ·) [T, T + 60000, T + 600000] =
          [T, T + 60000, T + 600000] := by
      apply List.Sorted.insertionSort_eq
      simp only [List.sorted_cons, List.mem_cons, List.mem_singleton,
        List.not_mem_nil, List.sorted_nil, false_implies, implies_true, and_true]
      constructor
      · rintro c hc
        rcases hc with rfl | rfl | h
        · omega
        · omega
        · exact h.elim
      · rintro c hc
        rcases hc with rfl | h
        · omega
        · exact h.elim
    have h1 : (((T + 60000 - T : Int) : ℚ) / (1000 * 60)) < 5 := by
      rw [gap_condition]; omega
    have h2 : ¬ ((((T + 600000 - (T + 60000) : Int) : ℚ) / (1000 * 60)) < 5) := by
      rw [gap_condition]; omega
    simp only [commitFrequencyScore, hsorted, suspiciousPatterns,
      if_pos h1, if_neg h2, List.length_cons, List.length_nil]
    norm_num

/-- C8: the Code Quality sub-score follows the spec's mapping — 0.5 when
additions + deletions = 0, else 0.3 / 0.9 / 0.6 by the deletion ratio —
with the three worked examples. -/
theorem code_quality_matches_spec :
    (∀ A D : Nat, codeQualityScore A D = codeQualitySpec A D) ∧
    codeQualityScore 1000 0 = 3/10 ∧
    codeQualityScore 10 90 = 9/10 ∧
    codeQualityScore 50 30 = 6/10 ∧
    codeQualityScore 0 0 = 1/2 := by
  refine ⟨?_, by norm_num [codeQualityScore], by norm_num [codeQualityScore],
    by norm_num [codeQualityScore], by norm_num [codeQualityScore]⟩
  intro A D
  unfold codeQualityScore codeQualitySpec
  rcases Nat.eq_zero_or_pos (A + D) with h | h
  · rw [if_neg (show ¬A + D > 0 by omega), if_pos h]
  · rw [if_pos h, if_neg (show ¬A + D = 0 by omega)]

/-- C2: the overall score is exactly the fixed weighted sum
`0.4*commitFrequency + 0.3*codeQuality + 0.1*projectDiversity +
0.2*contributionImpact`, and lies in [0,1] whenever each sub-score
does (the weights sum to 1). -/
theorem overall_score_weighted_sum (m : Metrics)
    (hcf0 : 0 ≤ m.commitFrequency) (hcf1 : m.commitFrequency ≤ 1)
    (hcq0 : 0 ≤ m.codeQuality) (hcq1 : m.codeQuality ≤ 1)
    (hpd0 : 0 ≤ m.projectDiversity) (hpd1 : m.projectDiversity ≤ 1)
    (hci0 : 0 ≤ m.contributionImpact) (hci1 : m.contributionImpact ≤ 1) :
    overallScore m =
      (4/10) * m.commitFrequency + (3/10) * m.codeQuality +
      (1/10) * m.projectDiversity + (2/10) * m.contributionImpact ∧
    0 ≤ overallScore m ∧ overallScore m ≤ 1 := by
  unfold overallScore
  refine ⟨by ring, by linarith, by linarith⟩

/-- Witness for C2 at the metrics bundle (1/2, 1/2, 1/2, 1/2). -/
theorem overall_score_weighted_sum_witness :
    overallScore ⟨1/2, 1/2, 1/2, 1/2⟩ =
      (4/10) * (1/2 : ℚ) + (3/10) * (1/2 : ℚ) + (1/10) * (1/2 : ℚ) + (2/10) * (1/2 : ℚ) ∧
    0 ≤ overallScore ⟨1/2, 1/2, 1/2, 1/2⟩ ∧ overallScore ⟨1/2, 1/2, 1/2, 1/2⟩ ≤ 1 :=
  overall_score_weighted_sum ⟨1/2, 1/2, 1/2, 1/2⟩
    (by norm_num) (by norm_num) (by norm_num) (by norm_num)
    (by norm_num) (by norm_num) (by norm_num) (by norm_num)

/-- C4: a live (younger than the 5-minute TTL) entry is returned without
invoking the fetch function; otherwise the fetch function runs exactly
once and its result is stored with the current timestamp and returned;
hence two calls with the same key within one TTL window, starting from a
key with no live entry, invoke the underlying fetch exactly once and the
second call returns the first call's value. -/
theorem cache_get_or_fetch :
    (∀ (α : Type) (cache : Cache α) (now : Nat) (key : String) (fetchFn : Unit → α)
        (entry : CacheEntry α),
      cache key = some entry → now - entry.timestamp < CACHE_TTL →
      getCachedOrFetch cache now key fetchFn = (entry.data, cache, 0)) ∧
    (∀ (α : Type) (cache : Cache α) (now : Nat) (key : String) (fetchFn : Unit → α),
      (∀ entry, cache key = some entry → ¬(now - entry.timestamp < CACHE_TTL)) →
      getCachedOrFetch cache now key fetchFn =
        (fetchFn (), cacheSet cache key ⟨fetchFn (), now⟩, 1)) ∧
    (∀ (α : Type) (cache : Cache α) (now₁ now₂ : Nat) (key : String)
        (f₁ f₂ : Unit → α),
      (∀ entry, cache key = some entry → ¬(now₁ - entry.timestamp < CACHE_TTL)) →
      now₂ - now₁ < CACHE_TTL →
      (getCachedOrFetch cache now₁ key f₁).2.2 +
        (getCachedOrFetch (getCachedOrFetch cache now₁ key f₁).2.1 now₂ key f₂).2.2 = 1 ∧
      (getCachedOrFetch (getCachedOrFetch cache now₁ key f₁).2.1 now₂ key f₂).1 = f₁ ()) := by
  have hlive : ∀ (α : Type) (cache : Cache α) (now : Nat) (key : String)
      (fetchFn : Unit → α) (entry : CacheEntry α),
      cache key = some entry → now - entry.timestamp < CACHE_TTL →
      getCachedOrFetch cache now key fetchFn = (entry.data, cache, 0) := by
    intro α cache now key fetchFn entry hentry hfresh
    unfold getCachedOrFetch
    rw [hentry]
    exact if_pos hfresh
  have hmiss : ∀ (α : Type) (cache : Cache α) (now : Nat) (key : String)
      (fetchFn : Unit → α),
      (∀ entry, cache key = some entry → ¬(now - entry.timestamp < CACHE_TTL)) →
      getCachedOrFetch cache now key fetchFn =
        (fetchFn (), cacheSet cache key ⟨fetchFn (), now⟩, 1) := by
    intro α cache now key fetchFn hstale
    unfold getCachedOrFetch
    cases hentry : cache key with
    | none => rfl
    | some entry => exact if_neg (hstale entry hentry)
  refine ⟨hlive, hmiss, ?_⟩
  intro α cache now₁ now₂ key f₁ f₂ hstale hwindow
  rw [hmiss α cache now₁ key f₁ hstale]
  have hset : cacheSet cache key ⟨f₁ (), now₁⟩ key = some ⟨f₁ (), now₁⟩ := by
    unfold cacheSet
    rw [if_pos rfl]
  rw [hlive α (cacheSet cache key ⟨f₁ (), now₁⟩) now₂ key f₂ ⟨f₁ (), now₁⟩ hset hwindow]
  exact ⟨rfl, rfl⟩

/-- Witness for C4: empty cache, key "repos:octocat", second call one
minute after the first. -/
theorem cache_get_or_fetch_witness :
    (getCachedOrFetch (fun _ => (none : Option (CacheEntry Nat))) 0 "repos:octocat"
        (fun _ => 42)).2.2 +
      (getCachedOrFetch
        (getCachedOrFetch (fun _ => (none : Option (CacheEntry Nat))) 0 "repos:octocat"
          (fun _ => 42)).2.1 60000 "repos:octocat" (fun _ => 7)).2.2 = 1 ∧
    (getCachedOrFetch
      (getCachedOrFetch (fun _ => (none : Option (CacheEntry Nat))) 0 "repos:octocat"
        (fun _ => 42)).2.1 60000 "repos:octocat" (fun _ => 7)).1 = 42 :=
  cache_get_or_fetch.2.2 Nat (fun _ => none) 0 60000 "repos:octocat"
    (fun _ => 42) (fun _ => 7)
    (fun _ h => Option.noConfusion h)
    (by norm_num [CACHE_TTL])

/-- C6 counterexample: the error surfaced for an HTTP 404 while fetching
commit "deadbeef" is the fixed generic message — identical for a
different request — and does not mention the requested entity. -/
theorem not_found_no_entity_counterexample :
    handleApiError (.api 404 "Not Found" none) "fetching commit details for deadbeef" =
      .plain notFoundErrorMessage ∧
    handleApiError (.api 404 "Not Found" none) "fetching commit details for deadbeef" =
      handleApiError (.api 404 "Not Found" none) "fetching user repositories" ∧
    stringIncludes notFoundErrorMessage "deadbeef" = false := by
  refine ⟨by rfl, by rfl, by decide⟩

/-- C6 amended: an HTTP 404 is never retried (a single attempt) and the
surfaced error is the fixed generic not-found message, independent of the
requested entity (which appears only in the logged context). -/
theorem not_found_no_retry_generic (α : Type) (message context : String) :
    runRequest (fun _ => GhResponse.httpError (α := α) 404 message) =
      (1, .error (.api 404 message none)) ∧
    handleApiError (.api 404 message none) context = .plain notFoundErrorMessage := by
  constructor
  · rfl
  · simp [handleApiError]

set_option maxRecDepth 4000 in
/-- C7 (evaluation at the failing input): when every attempt hits the
primary rate limit, the request is attempted 4 times — one initial call
plus 3 automatic retries, one more than the 2 retries the claim (and the
source's own comment) state — because `onRateLimit` accepts retry counts
0, 1 and 2; the rate-limit error, carrying the reset time, is surfaced
only after that. -/
theorem rate_limit_retry_exhaustion :
    runRequest (fun _ => GhResponse.primaryRateLimit (α := Unit) (some 1700000000)) =
      (4, .error (.api 403 "API rate limit exceeded" (some 1700000000))) ∧
    onRateLimit 0 = true ∧ onRateLimit 1 = true ∧ onRateLimit 2 = true ∧
    onRateLimit 3 = false ∧
    handleApiError (.api 403 "API rate limit exceeded" (some 1700000000))
        "fetching user repositories" =
      .plain (rateLimitErrorMessage
        (" Rate limit will reset at " ++ toLocaleTimeString 1700000000 ++ ".")) := by
  refine ⟨rfl, rfl, rfl, rfl, rfl, by decide⟩

/-- C3: a user whose fetched repository list contains zero non-fork
repositories yields overall score 0 with all four sub-scores 0, and the
fetch trace holds exactly the initial repository listing — no commit or
commit-detail fetch occurs. -/
theorem zero_nonfork_short_circuit (env : ApiEnv) (username : String)
    (repos : List GitHubRepo)
    (hrepos : env.repos username = .ok repos)
    (hnofork : repos.filter (fun repo => !repo.fork) = []) :
    analyzeCommitFarming env username =
      (.ok ⟨0, ⟨0, 0, 0, 0⟩⟩, [.listRepos username]) := by
  unfold analyzeCommitFarming fetchUserRepos
  rw [hrepos]
  simp [hnofork]

/-- Witness for C3: the fork-only environment. -/
theorem zero_nonfork_short_circuit_witness :
    analyzeCommitFarming envOnlyForks "octocat" =
      (.ok ⟨0, ⟨0, 0, 0, 0⟩⟩, [.listRepos "octocat"]) :=
  zero_nonfork_short_circuit envOnlyForks "octocat"
    [⟨"octocat/forked", true, 3, 1⟩] rfl (by decide)

/-! ## Loop lemmas: successful runs issue only successful calls -/

/-- If the detail loop succeeds, every call it made succeeded. -/
lemma detailLoop_ok_calls_succeed (env : ApiEnv) (owner repoName : String) :
    ∀ (cs : List GitHubCommit) (ta td : Nat),
      exceptOk (detailLoop env owner repoName cs ta td).1 = true →
      ∀ c ∈ (detailLoop env owner repoName cs ta td).2, callFails env c = false := by
  intro cs
  induction cs with
  | nil =>
    intro ta td _ c hc
    simp [detailLoop] at hc
  | cons commit rest ih =>
    intro ta td hok c hc
    cases hcd : env.commitDetail owner repoName commit.sha with
    | error e =>
      simp only [detailLoop, fetchCommitDetails, hcd, exceptOk] at hok
      exact absurd hok (by decide)
    | ok details =>
      simp only [detailLoop, fetchCommitDetails, hcd] at hok hc
      rcases List.mem_cons.mp hc with rfl | hc'
      · simp [callFails, hcd]
      · exact ih _ _ hok c hc'

/-- If the repository loop succeeds, every call it made succeeded. -/
lemma repoLoop_ok_calls_succeed (env : ApiEnv) :
    ∀ (rs : List GitHubRepo) (tc ta td : Nat) (dates : List Int),
      exceptOk (repoLoop env rs tc ta td dates).1 = true →
      ∀ c ∈ (repoLoop env rs tc ta td dates).2, callFails env c = false := by
  intro rs
  induction rs with
  | nil =>
    intro tc ta td dates _ c hc
    simp [repoLoop] at hc
  | cons repo rest ih =>
    intro tc ta td dates hok c hc
    cases hcm : env.commits (splitFullName repo.full_name).1
        (splitFullName repo.full_name).2 with
    | error e =>
      simp only [repoLoop, fetchRepoCommits, hcm, exceptOk] at hok
      exact absurd hok (by decide)
    | ok commits =>
      simp only [repoLoop, fetchRepoCommits, hcm] at hok hc
      cases hd : (detailLoop env (splitFullName repo.full_name).1
          (splitFullName repo.full_name).2 (commits.take 5) ta td).1 with
      | error e =>
        simp only [hd, exceptOk] at hok
        exact absurd hok (by decide)
      | ok acc =>
        simp only [hd] at hok hc
        simp only [List.cons_append, List.mem_cons, List.mem_append] at hc
        rcases hc with rfl | hc' | hc'
        · simp [callFails, hcm]
        · exact detailLoop_ok_calls_succeed env _ _ (commits.take 5) ta td
            (by simp [exceptOk, hd]) c hc'
        · exact ih _ _ _ _ hok c hc'

/-- If the analysis returns a result, every fetch it made succeeded. -/
lemma analyze_ok_calls_succeed (env : ApiEnv) (username : String)
    (hok : exceptOk (analyzeCommitFarming env username).1 = true) :
    ∀ c ∈ (analyzeCommitFarming env username).2, callFails env c = false := by
  intro c hc
  cases hrep : env.repos username with
  | error e =>
    simp only [analyzeCommitFarming, fetchUserRepos, hrep, exceptOk] at hok
    exact absurd hok (by decide)
  | ok repos =>
    simp only [analyzeCommitFarming, fetchUserRepos, hrep] at hok hc
    by_cases hempty : (repos.filter (fun repo => !repo.fork)).length = 0
    · simp only [if_pos hempty, List.mem_singleton] at hc
      subst hc
      simp [callFails, hrep]
    · simp only [if_neg hempty] at hok hc
      cases hloop : (repoLoop env ((repos.filter (fun repo => !repo.fork)).take 5)
          0 0 0 []).1 with
      | error e =>
        simp only [hloop, exceptOk] at hok
        exact absurd hok (by decide)
      | ok acc =>
        simp only [hloop] at hok hc
        rcases List.mem_cons.mp hc with rfl | hc'
        · simp [callFails, hrep]
        · exact repoLoop_ok_calls_succeed env _ 0 0 0 []
            (by simp [exceptOk, hloop]) c hc'

/-- C5: if any fetch made during an analysis fails in the environment,
the analysis raises an error — no partially-computed result is
returned. -/
theorem fail_fast_no_partial_result (env : ApiEnv) (username : String)
    (hfail : ∃ c ∈ (analyzeCommitFarming env username).2, callFails env c = true) :
    ∃ e, (analyzeCommitFarming env username).1 = .error e := by
  rcases hfail with ⟨c, hc, hfails⟩
  cases hres : (analyzeCommitFarming env username).1 with
  | error e => exact ⟨e, rfl⟩
  | ok r =>
    have hall := analyze_ok_calls_succeed env username (by simp [exceptOk, hres]) c hc
    rw [hfails] at hall
    exact absurd hall (by simp)

/-- Witness for C5: the environment whose commit listing fails with an
HTTP 500. -/
theorem fail_fast_witness :
    ∃ e, (analyzeCommitFarming envFailingCommits "alice").1 = .error e :=
  fail_fast_no_partial_result envFailingCommits "alice"
    ⟨.listCommits "alice" "proj", by decide, by decide⟩

/-! ## Call-volume lemmas -/

/-- The detail loop issues one commit-detail fetch per sampled commit at
most, and no commit-list fetches. -/
lemma detailLoop_counts (env : ApiEnv) (owner repoName : String) :
    ∀ (cs : List GitHubCommit) (ta td : Nat),
      (detailLoop env owner repoName cs ta td).2.countP isGetCommitCall ≤ cs.length ∧
      (detailLoop env owner repoName cs ta td).2.countP isListCommitsCall = 0 := by
  intro cs
  induction cs with
  | nil => intro ta td; simp [detailLoop]
  | cons commit rest ih =>
    intro ta td
    cases hcd : env.commitDetail owner repoName commit.sha with
    | error e =>
      simp [detailLoop, fetchCommitDetails, hcd, List.countP_cons,
        isGetCommitCall, isListCommitsCall]
    | ok details =>
      cases hstats : details.stats with
      | none =>
        have h := ih ta td
        simp [detailLoop, fetchCommitDetails, hcd, hstats, List.countP_cons,
          isGetCommitCall, isListCommitsCall, -List.countP_eq_zero] at h ⊢
        omega
      | some stats =>
        have h := ih (ta + stats.additions) (td + stats.deletions)
        simp [detailLoop, fetchCommitDetails, hcd, hstats, List.countP_cons,
          isGetCommitCall, isListCommitsCall, -List.countP_eq_zero] at h ⊢
        omega

/-- The repository loop issues at most one commit-list fetch and at most
5 commit-detail fetches per repository. -/
lemma repoLoop_counts (env : ApiEnv) :
    ∀ (rs : List GitHubRepo) (tc ta td : Nat) (dates : List Int),
      (repoLoop env rs tc ta td dates).2.countP isListCommitsCall ≤ rs.length ∧
      (repoLoop env rs tc ta td dates).2.countP isGetCommitCall ≤ 5 * rs.length := by
  intro rs
  induction rs with
  | nil => intro tc ta td dates; simp [repoLoop]
  | cons repo rest ih =>
    intro tc ta td dates
    have htake : ∀ commits : List GitHubCommit, (commits.take 5).length ≤ 5 := by
      intro commits
      simp [List.length_take]
    cases hcm : env.commits (splitFullName repo.full_name).1
        (splitFullName repo.full_name).2 with
    | error e =>
      simp [repoLoop, fetchRepoCommits, hcm, List.countP_cons,
        isGetCommitCall, isListCommitsCall]
    | ok commits =>
      have hd5 := detailLoop_counts env (splitFullName repo.full_name).1
        (splitFullName repo.full_name).2 (commits.take 5) ta td
      have h5 : (commits.take 5).length ≤ 5 := htake commits
      cases hd : (detailLoop env (splitFullName repo.full_name).1
          (splitFullName repo.full_name).2 (commits.take 5) ta td).1 with
      | error e =>
        simp [repoLoop, fetchRepoCommits, hcm, hd, List.countP_cons,
          isGetCommitCall, isListCommitsCall, -List.countP_eq_zero] at hd5 ⊢
        omega
      | ok acc =>
        have hr := ih (tc + commits.length) acc.1 acc.2
          (dates ++ commits.map (fun c => c.date))
        simp [repoLoop, fetchRepoCommits, hcm, hd, List.cons_append,
          List.countP_cons, List.countP_append, isGetCommitCall,
          isListCommitsCall, -List.countP_eq_zero] at hd5 hr ⊢
        omega

/-- C9: any analysis issues at most 5 commit-list fetches (one per
analysed repository, repositories sampled as the first 5 non-fork entries
of the listing) and at most 25 commit-detail fetches (at most the first 5
commits of each analysed repository). -/
theorem sampling_bounds (env : ApiEnv) (username : String) :
    (analyzeCommitFarming env username).2.countP isListCommitsCall ≤ 5 ∧
    (analyzeCommitFarming env username).2.countP isGetCommitCall ≤ 25 := by
  cases hrep : env.repos username with
  | error e =>
    simp [analyzeCommitFarming, fetchUserRepos, hrep, List.countP_cons,
      isGetCommitCall, isListCommitsCall]
  | ok repos =>
    simp only [analyzeCommitFarming, fetchUserRepos, hrep]
    by_cases hempty : (repos.filter (fun repo => !repo.fork)).length = 0
    · rw [if_pos hempty]
      simp [List.countP_cons, isGetCommitCall, isListCommitsCall]
    · rw [if_neg hempty]
      have hcounts := repoLoop_counts env
        ((repos.filter (fun repo => !repo.fork)).take 5) 0 0 0 []
      have hlen : ((repos.filter (fun repo => !repo.fork)).take 5).length ≤ 5 := by
        simp [List.length_take]
      cases hloop : (repoLoop env ((repos.filter (fun repo => !repo.fork)).take 5)
          0 0 0 []).1 with
      | error e =>
        simp [hloop, List.countP_cons, isGetCommitCall, isListCommitsCall,
          -List.countP_eq_zero] at hcounts ⊢
        omega
      | ok acc =>
        simp [hloop, List.countP_cons, isGetCommitCall, isListCommitsCall,
          -List.countP_eq_zero] at hcounts ⊢
        omega

/-! ## Sub-score bounds -/

/-- The Commit Frequency sub-score is never negative. -/
lemma commitFrequencyScore_nonneg (dates : List Int) :
    0 ≤ commitFrequencyScore dates := by
  simp only [commitFrequencyScore]
  split
  · exact le_max_left 0 _
  · norm_num

/-- The Code Quality sub-score is at least 0.3. -/
lemma codeQualityScore_ge (A D : Nat) : 3/10 ≤ codeQualityScore A D := by
  simp only [codeQualityScore]
  split_ifs <;> norm_num

/-- With at least one repository, Project Diversity is at least 0.1. -/
lemma projectDiversityScore_ge (n : Nat) (h : 1 ≤ n) :
    1/10 ≤ projectDiversityScore n := by
  unfold projectDiversityScore
  refine le_min (by norm_num) ?_
  have hn : (1 : ℚ) ≤ (n : ℚ) := by exact_mod_cast h
  linarith

/-- The Contribution Impact sub-score is at least 0.3. -/
lemma contributionImpactScore_ge (s f : Nat) :
    3/10 ≤ contributionImpactScore s f := by
  unfold contributionImpactScore
  split_ifs <;> norm_num

/-- C10: for an analysis that completes with the fetched listing `repos`,
the overall score is strictly positive whenever at least one non-fork
repository exists, and the score is 0 in the zero-non-fork case — so a
returned overall score of exactly 0 happens precisely for users with no
non-fork repositories. -/
theorem overall_score_zero_iff_no_nonfork (env : ApiEnv) (username : String)
    (repos : List GitHubRepo) (result : AnalysisResult)
    (hrepos : env.repos username = .ok repos)
    (hok : (analyzeCommitFarming env username).1 = .ok result) :
    (repos.filter (fun repo => !repo.fork) ≠ [] → 0 < result.score) ∧
    (repos.filter (fun repo => !repo.fork) = [] → result.score = 0) := by
  constructor
  · intro hne
    have hlen : ¬(repos.filter (fun repo => !repo.fork)).length = 0 := by
      simpa [List.length_eq_zero] using hne
    simp only [analyzeCommitFarming, fetchUserRepos, hrepos, if_neg hlen] at hok
    cases hloop : (repoLoop env ((repos.filter (fun repo => !repo.fork)).take 5)
        0 0 0 []).1 with
    | error e =>
      rw [hloop] at hok
      exact Except.noConfusion hok
    | ok acc =>
      rw [hloop] at hok
      injection hok with h
      rw [← h]
      have h1 := commitFrequencyScore_nonneg acc.2.2.2
      have h2 := codeQualityScore_ge acc.2.1 acc.2.2.1
      have h3 := projectDiversityScore_ge
        (repos.filter (fun repo => !repo.fork)).length (by omega)
      have h4 := contributionImpactScore_ge
        ((repos.filter (fun repo => !repo.fork)).map
          (fun repo => repo.stargazers_count)).sum
        ((repos.filter (fun repo => !repo.fork)).map
          (fun repo => repo.forks_count)).sum
      simp only [overallScore]
      linarith
  · intro he
    have hlen : (repos.filter (fun repo => !repo.fork)).length = 0 := by
      simp [he]
    simp only [analyzeCommitFarming, fetchUserRepos, hrepos, if_pos hlen] at hok
    injection hok with h
    rw [← h]

/-- Evaluation of the analysis on the one-quiet-repository environment:
it completes with overall score 21/50 and metrics (1/2, 1/2, 1/10, 3/10). -/
lemma envOneQuietRepo_analysis :
    (analyzeCommitFarming envOneQuietRepo "alice").1 =
      .ok ⟨21/50, ⟨1/2, 1/2, 1/10, 3/10⟩⟩ := by
  have hloop : (repoLoop envOneQuietRepo
      ((([⟨"alice/proj", false, 0, 0⟩] : List GitHubRepo).filter
        (fun repo => !repo.fork)).take 5) 0 0 0 []).1 = .ok (0, 0, 0, []) := by
    decide
  simp only [analyzeCommitFarming, fetchUserRepos]
  simp only [show envOneQuietRepo.repos "alice" =
    .ok [⟨"alice/proj", false, 0, 0⟩] from rfl]
  rw [if_neg (by decide)]
  simp only [hloop]
  simp only [commitFrequencyScore, codeQualityScore, projectDiversityScore,
    contributionImpactScore, overallScore]
  norm_num

/-- Witness for C10: the one-quiet-repository environment completes with
overall score 21/50 > 0. -/
theorem overall_score_zero_iff_no_nonfork_witness :
    (([⟨"alice/proj", false, 0, 0⟩] : List GitHubRepo).filter
        (fun repo => !repo.fork) ≠ [] →
      0 < (⟨21/50, ⟨1/2, 1/2, 1/10, 3/10⟩⟩ : AnalysisResult).score) ∧
    (([⟨"alice/proj", false, 0, 0⟩] : List GitHubRepo).filter
        (fun repo => !repo.fork) = [] →
      (⟨21/50, ⟨1/2, 1/2, 1/10, 3/10⟩⟩ : AnalysisResult).score = 0) :=
  overall_score_zero_iff_no_nonfork envOneQuietRepo "alice"
    [⟨"alice/proj", false, 0, 0⟩] ⟨21/50, ⟨1/2, 1/2, 1/10, 3/10⟩⟩
    rfl envOneQuietRepo_analysis

end GitFlex
